import Mathlib

/-!
Verification of the minim research pipeline.

A shallow embedding of the core of the `minim` repository:

* `src/minim/ratelimiter.py` — `UnboundedAsyncLimiter`, a subclass of
  `aiolimiter.AsyncLimiter` overriding `acquire`, `has_capacity` and
  `_wake_next`.  The bucket state (`max_rate`, `_rate_per_sec`, `_level`,
  `_last_check`) and the inherited `_leak` are modelled over `ℚ`
  (exact arithmetic standing in for Python floats).
* `src/minim/researcher.py` — `MinimAskNewsSearcher`: query planning
  (`produce_queries`), the FETCH accumulation of search responses inside
  `get_formatted_news_async`, the relevance-filter loop, and the report
  cache (`_check_for_report`, `_write_report`, `_check_report_stale`).

Effectful collaborators (LLM calls, the AskNews API, the file system) are
passed in as explicit inputs or oracle functions; everything here is a
computable function of those inputs.
-/

namespace Minim

/-! ## Rate limiter (src/minim/ratelimiter.py) -/

/-- The mutable state of an `aiolimiter.AsyncLimiter` bucket:
`max_rate` / `time_period` are fixed at construction (`rate_per_sec =
max_rate / time_period`); `level` is the current bucket level and
`last_check` the wall-clock time of the last lazy leak. -/
structure Limiter where
  max_rate : ℚ
  rate_per_sec : ℚ
  level : ℚ
  last_check : ℚ
deriving Repr, DecidableEq

/-- The inherited `AsyncLimiter._leak`: if the level is non-zero, drip out
`(now - last_check) * rate_per_sec` capacity, clamped below at `0`; in both
cases record `now` as the last check time. -/
def Limiter.leak (s : Limiter) (now : ℚ) : Limiter :=
  if s.level = 0 then { s with last_check := now }
  else { s with
          level := max (s.level - (now - s.last_check) * s.rate_per_sec) 0
          last_check := now }

/-- Model of `UnboundedAsyncLimiter.has_capacity` (ratelimiter.py lines 48-55): leak,
then report capacity when the bucket is empty (`level == 0`) or when
`level + amount <= max_rate`.  The mutation performed by `_leak` is captured
by phrasing every later read of the state through `s.leak now` (leaking is
idempotent at a fixed time). -/
def Limiter.hasCapacity (s : Limiter) (now amount : ℚ) : Bool :=
  decide ((s.leak now).level = 0) ||
    decide ((s.leak now).level + amount ≤ (s.leak now).max_rate)

/-- Observable outcome of one call to `acquire`: it either raises, returns
without suspending, or suspends on a future after enqueuing a waiter. -/
inductive AcquireResult where
  | raises (msg : String)
  | immediate (s' : Limiter)
  | suspends (s' : Limiter)
deriving Repr, DecidableEq

/-- Model of `UnboundedAsyncLimiter.acquire` (ratelimiter.py lines 21-46), one
evaluation of the `while not self.has_capacity(amount)` loop at time `now`:
with capacity, the task adds `amount` to the level and returns; without,
it pushes `(amount, count, fut)` on the waiter heap and awaits.  The
override contains no `raise` statement (unlike the base class). -/
def Limiter.acquire (s : Limiter) (now amount : ℚ) : AcquireResult :=
  if s.hasCapacity now amount
  then .immediate { s.leak now with level := (s.leak now).level + amount }
  else .suspends (s.leak now)

/-- The base `aiolimiter.AsyncLimiter.acquire`, for contrast: it begins with
`if amount > self.max_rate: raise ValueError(...)`, and its `has_capacity`
has no empty-bucket exception. -/
def Limiter.acquireBase (s : Limiter) (now amount : ℚ) : AcquireResult :=
  if s.max_rate < amount then .raises "Cant acquire more than the maximum capacity"
  else if (s.leak now).level + amount ≤ (s.leak now).max_rate
  then .immediate { s.leak now with level := (s.leak now).level + amount }
  else .suspends (s.leak now)

/-- Whether an `acquire` call returned without suspending or raising. -/
def AcquireResult.returnsNow : AcquireResult → Bool
  | .immediate _ => true
  | _ => false

/-- One entry of the `_waiters` heap: the requested `amount` and the arrival
sequence number from `_next_count()` (the attached future is left out; only
pending, not-yet-done waiters are modelled). -/
structure Waiter where
  amount : ℚ
  seq : ℕ
deriving Repr, DecidableEq

/-- The `heapq` order on `(amount, count, fut)` tuples: lexicographic on
`(amount, seq)` (sequence numbers are unique, so the future is never
compared). -/
def Waiter.le (w w' : Waiter) : Prop :=
  w.amount < w'.amount ∨ (w.amount = w'.amount ∧ w.seq ≤ w'.seq)

instance : DecidableRel Waiter.le := fun w w' => by
  unfold Waiter.le
  infer_instance

/-- The top of a `heapq` heap: the least element in the `(amount, seq)`
order (ties beyond the unique sequence numbers resolved towards the
earlier list position). -/
def minWaiter : List Waiter → Option Waiter
  | [] => none
  | w :: ws =>
    match minWaiter ws with
    | none => some w
    | some m => if Waiter.le w m then some w else some m

/-- Model of `UnboundedAsyncLimiter._wake_next` (ratelimiter.py lines 57-80) on the
pending waiters `ws` at time `now`: take the heap top, leak, compute
`needed = min(amount - max_rate + level, level)`; when `needed <= 0` pop the
waiter and resolve its future (returning the granted waiter, the post-leak
limiter and the remaining heap); otherwise only a wake-up timer is set
(`none`). -/
def wakeNext (s : Limiter) (now : ℚ) (ws : List Waiter) :
    Option (Waiter × Limiter × List Waiter) :=
  match minWaiter ws with
  | none => none
  | some w =>
    if min (w.amount - (s.leak now).max_rate + (s.leak now).level)
         (s.leak now).level ≤ 0
    then some (w, s.leak now, ws.erase w) else none

/-- The chain of grants triggered from one `_wake_next` evaluation: each
resolved future lets its task finish `acquire` (adding its amount to the
level), whose trailing `_wake_next` call — together with the future's
done-callback — re-evaluates the next pending waiter.  `fuel` bounds the
chain length. -/
def runGrants : ℕ → Limiter → ℚ → List Waiter → List Waiter
  | 0, _, _, _ => []
  | fuel + 1, s, now, ws =>
    match wakeNext s now ws with
    | none => []
    | some (w, s', rest) =>
      w :: runGrants fuel { s' with level := s'.level + w.amount } now rest

/-! ## Strings and lines

Python's `str.split("\n")` and the substring test `needle in hay` are
modelled structurally over the character list of a `String`. -/

/-- Auxiliary for `splitLines`: accumulate the current line (reversed). -/
def splitLinesAux : List Char → List Char → List String
  | [], acc => [String.mk acc.reverse]
  | c :: cs, acc =>
    if c = '\n' then String.mk acc.reverse :: splitLinesAux cs []
    else splitLinesAux cs (c :: acc)

/-- Python `response.split("\n")`: split at every newline character;
`"".split("\n") == [""]`, and consecutive newlines yield empty lines. -/
def splitLines (s : String) : List String :=
  splitLinesAux s.data []

/-- Does `needle` occur at the head of `hay`? -/
def leadMatch : List Char → List Char → Bool
  | _, [] => true
  | [], _ :: _ => false
  | h :: hs, n :: ns => h = n && leadMatch hs ns

/-- Does `needle` occur as a contiguous sublist of `hay`? -/
def containsChars : List Char → List Char → Bool
  | [], needle => needle.isEmpty
  | h :: hs, needle => leadMatch (h :: hs) needle || containsChars hs needle

/-- Python substring test `needle in hay`. -/
def strContains (hay needle : String) : Bool :=
  containsChars hay.data needle.data

/-! ## Query planning (researcher.py, `produce_queries`, lines 161-203) -/

/-- The `while "Final answer:" not in next(lines): pass` scan: drop lines up
to and including the first one containing the sentinel; `none` models the
`StopIteration` raised when the iterator is exhausted first. -/
def dropToSentinel : List String → Option (List String)
  | [] => none
  | l :: ls => if strContains l "Final answer:" then some ls else dropToSentinel ls

/-- The parsing tail of `MinimAskNewsSearcher.produce_queries` (researcher.py
lines 186-203) on the split lines of the model response: after the sentinel
scan, `historical_query = next(lines)`; a `StopIteration` at either point is
caught and the raw question text used instead (with the exhausted iterator
yielding no recent queries); finally `recent_queries = [line for line in
lines]`, returned truncated to `recent_queries[:20]`. -/
def produceQueriesLines (question_text : String) (lines : List String) :
    String × List String :=
  match dropToSentinel lines with
  | none => (question_text, [])
  | some [] => (question_text, [])
  | some (h :: rest) => (h, rest.take 20)

/-- Model of `MinimAskNewsSearcher.produce_queries` as a function of the model
response text: `lines = iter(response.split("\n"))` then the parsing tail. -/
def produce_queries (question_text response : String) : String × List String :=
  produceQueriesLines question_text (splitLines response)

/-! ## FETCH step (researcher.py, `get_formatted_news_async`, lines 248-319) -/

/-- An AskNews article as the researcher reads it (`eng_title`, `summary`);
other fields of the external `SearchResponseDictItem` are irrelevant here. -/
structure Article where
  eng_title : String
  summary : String
deriving Repr, DecidableEq

/-- The `strategy=` argument of `ask.news.search_news`. -/
inductive Strategy where
  | latestNews
  | newsKnowledge
deriving Repr, DecidableEq

/-- One `ask.news.search_news` call as issued by the FETCH step. -/
structure SearchCall where
  query : String
  n_articles : ℕ
  strategy : Strategy
deriving Repr, DecidableEq

/-- The query-planning head of the FETCH step (researcher.py lines 262-270):
`historical_query = self.question.question_text`, overwritten by
`produce_queries()` when `check_query` is set and the acceptability check
(`do_check_query`, an LLM oracle whose verdict is the input
`query_check_verdict`) rejects the question text.  This is the claim's
"historical query". -/
def fetchHistoricalQuery (question_text : String) (check_query : Bool)
    (query_check_verdict : Bool) (planned : String × List String) : String :=
  let question_text_acceptable := if check_query then query_check_verdict else true
  if question_text_acceptable then question_text else planned.1

/-- The recent ("hot") queries of the FETCH step: `hot_queries = []` unless
the acceptability check rejected the question text, in which case they come
from `produce_queries()`. -/
def fetchHotQueries (check_query : Bool) (query_check_verdict : Bool)
    (planned : String × List String) : List String :=
  let question_text_acceptable := if check_query then query_check_verdict else true
  if question_text_acceptable then [] else planned.2

/-- The sequence of `ask.news.search_news` calls issued by the FETCH step
(researcher.py lines 272-297), in order: a `strategy="latest news"` search
with `n_articles=6` and a `strategy="news knowledge"` search with
`n_articles=10`, both with `query=query` — the *parameter* of
`get_formatted_news_async` (the repurposed cache-check string `"v0.1"`
passed by `run_research`), while the computed `historical_query` is never
read again — then one `n_articles=5` latest-news search per hot query. -/
def fetchSearchCalls (query question_text : String) (check_query : Bool)
    (query_check_verdict : Bool) (planned : String × List String) :
    List SearchCall :=
  let _historical_query :=
    fetchHistoricalQuery question_text check_query query_check_verdict planned
  let hot_queries := fetchHotQueries check_query query_check_verdict planned
  ⟨query, 6, .latestNews⟩ :: ⟨query, 10, .newsKnowledge⟩ ::
    hot_queries.map (fun q => ⟨q, 5, .latestNews⟩)

/-- The article accumulation of the FETCH step (researcher.py lines 287-298),
with each response given as the article list it produced (the empty list
standing for an empty or absent/falsy response):
`hot_articles = hist_hot_response if hist_full_response else []`,
`historical_articles = hist_full_response if hist_full_response else []`,
then `hot_articles.extend(hot_response if hot_response else [])` per hot
query, and `report = hot_articles + historical_articles`. -/
def buildReport (hist_hot_response hist_full_response : List Article)
    (hot_responses : List (List Article)) : List Article :=
  let hot_articles := if hist_full_response.isEmpty then [] else hist_hot_response
  let historical_articles := if hist_full_response.isEmpty then [] else hist_full_response
  let hot_articles :=
    hot_responses.foldl (fun acc r => acc ++ (if r.isEmpty then [] else r)) hot_articles
  hot_articles ++ historical_articles

/-- The value of the variable `query` after the `for query in hot_queries:`
loop (researcher.py line 289): the loop target rebinds the function
parameter, so afterwards `query` is the last hot query when there is one. -/
def queryAfterHotLoop (query : String) (hot_queries : List String) : String :=
  hot_queries.foldl (fun _ q => q) query

/-! ## Relevance filter (researcher.py lines 306-315) -/

/-- The filtering loop: per article, `check_summary` (an LLM oracle `judge`;
`.error` models any raised exception) decides membership; a raised exception
is caught and the article appended anyway. -/
def filterRelevantLoop (judge : Article → Except Unit Bool) :
    List Article → List Article
  | [] => []
  | a :: rest =>
    match judge a with
    | .ok true => a :: filterRelevantLoop judge rest
    | .ok false => filterRelevantLoop judge rest
    | .error _ => a :: filterRelevantLoop judge rest

/-- The FILTER step: run the loop when `check_relevance` is set, otherwise
`relevant_articles = report` unchanged. -/
def filterRelevant (check_relevance : Bool) (judge : Article → Except Unit Bool)
    (report : List Article) : List Article :=
  if check_relevance then filterRelevantLoop judge report else report

/-- Whether one article survives the loop body: kept unless the judgment
returns `false` without raising. -/
def keepArticle (judge : Article → Except Unit Bool) (a : Article) : Bool :=
  match judge a with
  | .ok false => false
  | _ => true

/-! ## Report cache (researcher.py lines 321-375) -/

/-- A JSON value, as produced by `json.load`. -/
inductive Json where
  | null
  | bool (b : Bool)
  | num (q : ℚ)
  | str (s : String)
  | arr (items : List Json)
  | obj (fields : List (String × Json))

/-- The persisted record `TimestampedAskNewsSearch` (researcher.py lines
46-49). -/
structure TimestampedAskNewsSearch where
  timestamp : ℚ
  query : String
  report : List Article
deriving Repr, DecidableEq

/-- First field with the given key in a JSON object. -/
def lookupField (fields : List (String × Json)) (k : String) : Option Json :=
  (fields.find? (fun p => p.1 == k)).map Prod.snd

/-- Validate the `report` array elementwise; the field validation of the
external `SearchResponseDictItem` schema is the parameter `validItem`. -/
def validateArticles (validItem : Json → Option Article) :
    List Json → Option (List Article)
  | [] => some []
  | j :: js => do
    let a ← validItem j
    let rest ← validateArticles validItem js
    pure (a :: rest)

/-- Model of `TimestampedAskNewsSearch.model_validate_json` on an already-parsed JSON
value: an object with a numeric `timestamp`, a string `query` and an array
`report` of valid items; anything else fails (`none` = pydantic
`ValidationError`). -/
def validateReport (validItem : Json → Option Article) :
    Json → Option TimestampedAskNewsSearch
  | .obj fields => do
    let t ← match lookupField fields "timestamp" with
            | some (.num q) => some q
            | _ => none
    let q ← match lookupField fields "query" with
            | some (.str s) => some s
            | _ => none
    let items ← match lookupField fields "report" with
                | some (.arr l) => some l
                | _ => none
    let report ← validateArticles validItem items
    pure ⟨t, q, report⟩
  | _ => none

/-- The content of the cache file as seen by `json.load`: either text that
is not valid JSON (on which `json.load` raises `json.JSONDecodeError`) or a
successfully parsed value. -/
inductive StoredPayload where
  | malformed
  | parsed (v : Json)

/-- Model of `MinimAskNewsSearcher._check_for_report` (researcher.py lines 321-341):
`None` when no `report_dir` is configured or the file does not exist; with
an existing file, `json.load` runs *outside* the `try` (its
`JSONDecodeError` on malformed content escapes, modelled as `.error`); a
pydantic `ValidationError` from `model_validate_json` is caught, logged and
turned into `None`. -/
def check_for_report (validItem : Json → Option Article)
    (report_dir : Option String) (file : Option StoredPayload) :
    Except String (Option TimestampedAskNewsSearch) :=
  match report_dir with
  | none => .ok none
  | some _ =>
    match file with
    | none => .ok none
    | some .malformed => .error "json.JSONDecodeError"
    | some (.parsed v) =>
      match validateReport validItem v with
      | some r => .ok (some r)
      | none => .ok none

/-- Model of `MinimAskNewsSearcher._write_report` (researcher.py lines 343-351): write
`{timestamp: time.time(), query: query, report: report}` when a report
directory is configured and the report is non-empty; otherwise a no-op
(`none`). -/
def write_report (report_dir : Option String) (nowTs : ℚ) (query : String)
    (report : List Article) : Option TimestampedAskNewsSearch :=
  if report_dir.isSome && !report.isEmpty then some ⟨nowTs, query, report⟩
  else none

/-- Model of `MinimAskNewsSearcher._check_report_stale` (researcher.py lines 360-375):
stale when the report is at least `freshness_threshold_days = 7` days old
(`timedelta.days` floors the difference measured in days) or the stored
query differs from the query of the present call. -/
def check_report_stale (query : String) (last : TimestampedAskNewsSearch)
    (now : ℚ) : Bool :=
  let old := decide ((7 : ℤ) ≤ ⌊(now - last.timestamp) / 86400⌋)
  let obsolete := decide (query ≠ last.query)
  old || obsolete

/-! ## Sample values used by witnesses -/

/-- The limiter `run_research` constructs: `UnboundedAsyncLimiter(1, 12.0)`,
so `max_rate = 1`, `rate_per_sec = 1/12`, starting empty at time `0`. -/
def lim0 : Limiter := ⟨1, 1/12, 0, 0⟩

/-- A sample article. -/
def artA : Article := ⟨"Title A", "Summary A"⟩

/-- A second sample article. -/
def artB : Article := ⟨"Title B", "Summary B"⟩

/-- A sample relevance judge for witnesses: raises on `artA`, rejects
everything else. -/
def judgeW : Article → Except Unit Bool := fun a =>
  if a.eng_title = "Title A" then .error () else .ok false

/-! ## Helper lemmas -/

theorem Waiter.le_rfl (w : Waiter) : Waiter.le w w :=
  Or.inr ⟨rfl, Nat.le_refl _⟩

theorem Waiter.le_total (w w' : Waiter) : Waiter.le w w' ∨ Waiter.le w' w := by
  rcases lt_trichotomy w.amount w'.amount with h | h | h
  · exact Or.inl (Or.inl h)
  · rcases Nat.le_total w.seq w'.seq with hs | hs
    · exact Or.inl (Or.inr ⟨h, hs⟩)
    · exact Or.inr (Or.inr ⟨h.symm, hs⟩)
  · exact Or.inr (Or.inl h)

theorem Waiter.le_transitive {a b c : Waiter} (h1 : Waiter.le a b)
    (h2 : Waiter.le b c) : Waiter.le a c := by
  rcases h1 with h1 | ⟨e1, s1⟩
  · rcases h2 with h2 | ⟨e2, s2⟩
    · exact Or.inl (h1.trans h2)
    · exact Or.inl (e2 ▸ h1)
  · rcases h2 with h2 | ⟨e2, s2⟩
    · exact Or.inl (e1 ▸ h2)
    · exact Or.inr ⟨e1.trans e2, s1.trans s2⟩

theorem minWaiter_eq_none {ws : List Waiter} (h : minWaiter ws = none) :
    ws = [] := by
  cases ws with
  | nil => rfl
  | cons x xs =>
    unfold minWaiter at h
    cases hm : minWaiter xs with
    | none => simp only [hm] at h; exact absurd h (by simp)
    | some m =>
      simp only [hm] at h
      split at h <;> simp at h

theorem minWaiter_mem {ws : List Waiter} {w : Waiter}
    (h : minWaiter ws = some w) : w ∈ ws := by
  induction ws generalizing w with
  | nil => simp [minWaiter] at h
  | cons x xs ih =>
    unfold minWaiter at h
    cases hm : minWaiter xs with
    | none =>
      simp only [hm] at h
      rw [Option.some_inj] at h
      rw [← h]
      exact List.mem_cons_self x xs
    | some m =>
      simp only [hm] at h
      by_cases hle : Waiter.le x m
      · rw [if_pos hle, Option.some_inj] at h
        rw [← h]
        exact List.mem_cons_self x xs
      · rw [if_neg hle, Option.some_inj] at h
        exact List.mem_cons_of_mem x (ih (h ▸ hm))

theorem minWaiter_le {ws : List Waiter} {w : Waiter}
    (h : minWaiter ws = some w) : ∀ w' ∈ ws, Waiter.le w w' := by
  induction ws generalizing w with
  | nil => simp [minWaiter] at h
  | cons x xs ih =>
    intro w' hw'
    unfold minWaiter at h
    cases hm : minWaiter xs with
    | none =>
      obtain rfl := minWaiter_eq_none hm
      simp only [hm] at h
      rw [Option.some_inj] at h
      rcases List.mem_cons.mp hw' with rfl | hw''
      · rw [← h]
        exact Waiter.le_rfl _
      · simp at hw''
    | some m =>
      simp only [hm] at h
      by_cases hle : Waiter.le x m
      · rw [if_pos hle, Option.some_inj] at h
        rcases List.mem_cons.mp hw' with rfl | hw''
        · rw [← h]
          exact Waiter.le_rfl _
        · rw [← h]
          exact Waiter.le_transitive hle (ih hm w' hw'')
      · rw [if_neg hle, Option.some_inj] at h
        rcases List.mem_cons.mp hw' with rfl | hw''
        · rw [← h]
          rcases Waiter.le_total w' m with hle2 | hle2
          · exact absurd hle2 hle
          · exact hle2
        · rw [← h]
          exact ih hm w' hw''

theorem Limiter.leak_max_rate (s : Limiter) (now : ℚ) :
    (s.leak now).max_rate = s.max_rate := by
  unfold Limiter.leak
  split <;> rfl

theorem wakeNext_eq_some {s : Limiter} {now : ℚ} {ws : List Waiter}
    {w : Waiter} {s' : Limiter} {rest : List Waiter}
    (h : wakeNext s now ws = some (w, s', rest)) :
    minWaiter ws = some w ∧ s' = s.leak now ∧ rest = ws.erase w ∧
    min (w.amount - (s.leak now).max_rate + (s.leak now).level)
      (s.leak now).level ≤ 0 := by
  unfold wakeNext at h
  cases hm : minWaiter ws with
  | none => simp only [hm] at h; exact absurd h (by simp)
  | some m =>
    simp only [hm] at h
    split at h
    case isTrue hcond =>
      rw [Option.some_inj, Prod.mk.injEq, Prod.mk.injEq] at h
      obtain ⟨rfl, rfl, rfl⟩ := h
      exact ⟨rfl, rfl, rfl, hcond⟩
    case isFalse _ => exact absurd h (by simp)

theorem runGrants_subset : ∀ (fuel : ℕ) (s : Limiter) (now : ℚ)
    (ws : List Waiter), ∀ x ∈ runGrants fuel s now ws, x ∈ ws
  | 0, _, _, _ => by simp [runGrants]
  | fuel + 1, s, now, ws => by
    unfold runGrants
    cases hw : wakeNext s now ws with
    | none => simp
    | some res =>
      obtain ⟨w, s', rest⟩ := res
      intro x hx
      rcases List.mem_cons.mp hx with rfl | hx
      · exact minWaiter_mem (wakeNext_eq_some hw).1
      · have hmem : x ∈ rest := runGrants_subset fuel _ now rest x hx
        rw [(wakeNext_eq_some hw).2.2.1] at hmem
        exact List.erase_subset _ _ hmem

theorem runGrants_sorted : ∀ (fuel : ℕ) (s : Limiter) (now : ℚ)
    (ws : List Waiter), List.Sorted Waiter.le (runGrants fuel s now ws)
  | 0, _, _, _ => List.sorted_nil
  | fuel + 1, s, now, ws => by
    unfold runGrants
    cases hw : wakeNext s now ws with
    | none => exact List.sorted_nil
    | some res =>
      obtain ⟨w, s', rest⟩ := res
      rw [List.sorted_cons]
      refine ⟨fun b hb => ?_, runGrants_sorted fuel _ now rest⟩
      have hb' : b ∈ rest := runGrants_subset fuel _ now rest b hb
      rw [(wakeNext_eq_some hw).2.2.1] at hb'
      exact minWaiter_le (wakeNext_eq_some hw).1 b (List.erase_subset _ _ hb')

theorem dropToSentinel_none : ∀ {L : List String},
    (∀ l ∈ L, strContains l "Final answer:" = false) → dropToSentinel L = none
  | [], _ => rfl
  | l :: ls, h => by
    have h0 := h l (List.mem_cons_self l ls)
    simp only [dropToSentinel, h0, Bool.false_eq_true, if_false]
    exact dropToSentinel_none fun x hx => h x (List.mem_cons_of_mem _ hx)

theorem dropToSentinel_found : ∀ (pre : List String) (s : String)
    (tail : List String),
    (∀ l ∈ pre, strContains l "Final answer:" = false) →
    strContains s "Final answer:" = true →
    dropToSentinel (pre ++ s :: tail) = some tail
  | [], s, tail, _, hs => by simp [dropToSentinel, hs]
  | l :: pre, s, tail, hpre, hs => by
    have h0 := hpre l (List.mem_cons_self l pre)
    simp only [List.cons_append, dropToSentinel, h0, Bool.false_eq_true, if_false]
    exact dropToSentinel_found pre s tail
      (fun x hx => hpre x (List.mem_cons_of_mem _ hx)) hs

theorem filterRelevantLoop_eq_filter (judge : Article → Except Unit Bool) :
    ∀ report : List Article,
      filterRelevantLoop judge report = report.filter (keepArticle judge)
  | [] => rfl
  | a :: rest => by
    rw [List.filter_cons]
    unfold filterRelevantLoop
    cases hj : judge a with
    | ok b =>
      cases b <;>
        simp [keepArticle, hj, filterRelevantLoop_eq_filter judge rest]
    | error e =>
      simp [keepArticle, hj, filterRelevantLoop_eq_filter judge rest]

/-- When `acquire` returns without suspending, the condition of
`has_capacity` held: leaked level zero or the leaked level plus the amount
within `max_rate`. -/
theorem acquire_returnsNow_iff (s : Limiter) (now amount : ℚ) :
    (s.acquire now amount).returnsNow = true ↔
      (s.leak now).level = 0 ∨ (s.leak now).level + amount ≤ s.max_rate := by
  unfold Limiter.acquire Limiter.hasCapacity
  rw [Limiter.leak_max_rate]
  split
  case isTrue hc =>
    simp only [AcquireResult.returnsNow, true_iff]
    rw [Bool.or_eq_true, decide_eq_true_eq, decide_eq_true_eq] at hc
    exact hc
  case isFalse hc =>
    simp only [AcquireResult.returnsNow, Bool.false_eq_true, false_iff]
    intro hcon
    apply hc
    rw [Bool.or_eq_true, decide_eq_true_eq, decide_eq_true_eq]
    exact hcon

/-! ## Claims -/

/-- C1: the FETCH step is claimed to issue both the latest-news search
(bound 6) and the news-knowledge search (bound 10) with the historical
query.  In the code both calls pass `query=query`, the parameter of
`get_formatted_news_async` — the repurposed cache-marker `"v0.1"` from
`run_research` — while the computed historical query (here "H") never
appears in any call; the bounds 6, 10 (and 5 per recent query) do match. -/
theorem fetch_searches_use_call_query :
    (fetchSearchCalls "v0.1" "Will X happen?" true false
        ("H", ["r1"])).map SearchCall.query = ["v0.1", "v0.1", "r1"] ∧
    (fetchSearchCalls "v0.1" "Will X happen?" true false
        ("H", ["r1"])).map SearchCall.n_articles = [6, 10, 5] ∧
    fetchHistoricalQuery "Will X happen?" true false ("H", ["r1"]) = "H" ∧
    "H" ∉ (fetchSearchCalls "v0.1" "Will X happen?" true false
        ("H", ["r1"])).map SearchCall.query := by
  refine ⟨rfl, rfl, rfl, ?_⟩
  decide

/-- C2: the cache record is claimed to be keyed by the query used for the
staleness check, whether or not recent queries were produced.  Without hot
queries the parameter survives, but the loop `for query in hot_queries:`
rebinds `query`, so with a hot query `"r1"` the record is written with
`query = "r1"`; the next staleness check against the parameter `"v0.1"`
then reports the just-written record stale, while a record keyed `"r1"`
checked against `"r1"` would have been fresh. -/
theorem persist_keyed_by_shadowed_query :
    queryAfterHotLoop "v0.1" [] = "v0.1" ∧
    queryAfterHotLoop "v0.1" ["r1"] = "r1" ∧
    write_report (some "reports") 1000 (queryAfterHotLoop "v0.1" ["r1"]) [artA]
      = some ⟨1000, "r1", [artA]⟩ ∧
    check_report_stale "v0.1" ⟨1000, "r1", [artA]⟩ 1000 = true ∧
    check_report_stale "r1" ⟨1000, "r1", [artA]⟩ 1000 = false := by
  refine ⟨rfl, rfl, rfl, ?_, ?_⟩
  · unfold check_report_stale
    simp only [Bool.or_eq_true, decide_eq_true_eq]
    right
    decide
  · unfold check_report_stale
    norm_num

/-- C3: whenever the post-leak level is `0`, `acquire` returns immediately
with the level set to the requested amount, for every amount — also above
`max_rate`; the override never raises (no `ValueError`), in contrast with
the base-class `acquire`, which raises exactly when `amount > max_rate`. -/
theorem acquire_immediate_on_empty_bucket (s : Limiter) (now amount : ℚ)
    (h : (s.leak now).level = 0) :
    s.acquire now amount = .immediate { s.leak now with level := amount } ∧
    (∀ a msg, s.acquire now a ≠ .raises msg) ∧
    (s.max_rate < amount → s.acquireBase now amount
      = .raises "Cant acquire more than the maximum capacity") := by
  refine ⟨?_, ?_, ?_⟩
  · unfold Limiter.acquire Limiter.hasCapacity
    rw [h]
    simp
  · intro a msg
    unfold Limiter.acquire
    split <;> simp
  · intro hlt
    unfold Limiter.acquireBase
    rw [if_pos hlt]

/-- Witness for C3 at the limiter `UnboundedAsyncLimiter(1, 12.0)`: starting
from level `5` at time `0`, by time `60` the bucket has fully leaked
(`60 * (1/12) = 5`), so an over-capacity `acquire(50)` returns at once. -/
theorem acquire_immediate_on_empty_bucket_witness :
    Limiter.acquire ⟨1, 1/12, 5, 0⟩ 60 50
      = .immediate { Limiter.leak ⟨1, 1/12, 5, 0⟩ 60 with level := 50 } ∧
    (∀ a msg, Limiter.acquire ⟨1, 1/12, 5, 0⟩ 60 a ≠ .raises msg) ∧
    ((⟨1, 1/12, 5, 0⟩ : Limiter).max_rate < 50 →
      Limiter.acquireBase ⟨1, 1/12, 5, 0⟩ 60 50
        = .raises "Cant acquire more than the maximum capacity") :=
  acquire_immediate_on_empty_bucket ⟨1, 1/12, 5, 0⟩ 60 50 (by
    unfold Limiter.leak
    norm_num)

/-- C4: `_wake_next` grants the pending waiter that is minimal in the
`(amount, sequence)` order — smallest requested amount first, ties broken
by arrival — and only when capacity is feasible for it (post-leak level
`≤ 0` or fitting under `max_rate`); the chain of grants each grant
re-triggers (`runGrants`) is therefore sorted in that order. -/
theorem waiters_served_smallest_first (s : Limiter) (now : ℚ)
    (ws : List Waiter) :
    (∀ w s' rest, wakeNext s now ws = some (w, s', rest) →
      w ∈ ws ∧ (∀ w' ∈ ws, Waiter.le w w') ∧
      ((s.leak now).level ≤ 0 ∨
        (s.leak now).level + w.amount ≤ s.max_rate) ∧
      rest = ws.erase w) ∧
    (∀ fuel, List.Sorted Waiter.le (runGrants fuel s now ws)) := by
  constructor
  · intro w s' rest h
    obtain ⟨hm, _, hrest, hcond⟩ := wakeNext_eq_some h
    refine ⟨minWaiter_mem hm, minWaiter_le hm, ?_, hrest⟩
    rw [Limiter.leak_max_rate] at hcond
    rcases min_le_iff.mp hcond with h1 | h1
    · right
      linarith
    · left
      exact h1
  · intro fuel
    exact runGrants_sorted fuel s now ws

/-- Witness for C4: with waiters of amounts `5` (arrived first) and `1`
(arrived second) on the empty limiter, the amount-`1` waiter is granted
first. -/
theorem waiters_served_smallest_first_witness :
    ((⟨1, 1⟩ : Waiter) ∈ [(⟨5, 0⟩ : Waiter), ⟨1, 1⟩] ∧
      (∀ w' ∈ [(⟨5, 0⟩ : Waiter), ⟨1, 1⟩], Waiter.le ⟨1, 1⟩ w') ∧
      ((lim0.leak 0).level ≤ 0 ∨
        (lim0.leak 0).level + (⟨1, 1⟩ : Waiter).amount ≤ lim0.max_rate) ∧
      [(⟨5, 0⟩ : Waiter), ⟨1, 1⟩].erase ⟨1, 1⟩
        = [(⟨5, 0⟩ : Waiter), ⟨1, 1⟩].erase ⟨1, 1⟩) ∧
    List.Sorted Waiter.le (runGrants 2 lim0 0 [⟨5, 0⟩, ⟨1, 1⟩]) := by
  have hmin : minWaiter [(⟨5, 0⟩ : Waiter), ⟨1, 1⟩] = some ⟨1, 1⟩ := by
    norm_num [minWaiter, Waiter.le]
  have hwake : wakeNext lim0 0 [⟨5, 0⟩, ⟨1, 1⟩]
      = some (⟨1, 1⟩, Limiter.leak lim0 0,
          [(⟨5, 0⟩ : Waiter), ⟨1, 1⟩].erase ⟨1, 1⟩) := by
    simp only [wakeNext, hmin]
    split
    case isTrue _ => rfl
    case isFalse hcond =>
      exact absurd (by norm_num [Limiter.leak, lim0]) hcond
  exact ⟨(waiters_served_smallest_first lim0 0 [⟨5, 0⟩, ⟨1, 1⟩]).1
      ⟨1, 1⟩ (Limiter.leak lim0 0) _ hwake,
    (waiters_served_smallest_first lim0 0 [⟨5, 0⟩, ⟨1, 1⟩]).2 2⟩

/-- C5: the filter input is claimed to accumulate latest-news, recent-query
and historical results, an empty or absent response contributing an empty
sequence with the others kept.  The guard `hist_hot_response if
hist_full_response else []` tests the wrong variable: with an empty
historical response the latest-news articles are discarded entirely
(`report = []` instead of `[artA]`); with a non-empty historical response
the accumulation behaves as claimed. -/
theorem report_drops_latest_when_historical_empty :
    buildReport [artA] [] [] = [] ∧
    buildReport [artA] [] [] ≠ [artA] ∧
    buildReport [artA] [artB] [] = [artA, artB] ∧
    buildReport [artA] [artB] [[], [artA]] = [artA, artA, artB] := by
  refine ⟨rfl, ?_, rfl, rfl⟩
  decide

/-- C6 counterexample: `produce_queries` is claimed to return only the
non-empty lines after the historical query as recent queries.  On a
response whose recent-query block contains a blank line, the code returns
the blank line as a query: the comprehension `[line for line in lines]`
never filters empty lines. -/
theorem produce_queries_keeps_empty_lines :
    (produce_queries "QT" "Final answer:\nH\nq1\n\nq2").2
      = ["q1", "", "q2"] ∧
    (produce_queries "QT" "Final answer:\nH\nq1\n\nq2").2 ≠ ["q1", "q2"] := by
  refine ⟨rfl, ?_⟩
  decide

/-- C6 amended: when some line of the response contains the sentinel
`"Final answer:"` and a line follows it, `produce_queries` returns that
following line as the historical query and, as recent queries, all
remaining lines verbatim — empty lines included — truncated to the first
twenty. -/
theorem produce_queries_after_sentinel (question_text response : String)
    (pre : List String) (sLine hq : String) (rest : List String)
    (hsplit : splitLines response = pre ++ sLine :: hq :: rest)
    (hpre : ∀ l ∈ pre, strContains l "Final answer:" = false)
    (hs : strContains sLine "Final answer:" = true) :
    produce_queries question_text response = (hq, rest.take 20) := by
  unfold produce_queries produceQueriesLines
  rw [hsplit, dropToSentinel_found pre sLine (hq :: rest) hpre hs]

/-- Witness for the amended C6 on a concrete model response. -/
theorem produce_queries_after_sentinel_witness :
    produce_queries "QT" "reasoning\nFinal answer:\nH\nr1" = ("H", ["r1"]) :=
  produce_queries_after_sentinel "QT" "reasoning\nFinal answer:\nH\nr1"
    ["reasoning"] "Final answer:" "H" ["r1"] (by decide) (by decide) (by decide)

/-- C7: when no line of the response contains the sentinel, the
`StopIteration` fallback returns the raw question text with no recent
queries, and nothing is raised (the function is total). -/
theorem produce_queries_fallback_no_sentinel (question_text response : String)
    (h : ∀ l ∈ splitLines response, strContains l "Final answer:" = false) :
    produce_queries question_text response = (question_text, []) := by
  unfold produce_queries produceQueriesLines
  rw [dropToSentinel_none h]

/-- Witness for C7 on a concrete sentinel-free response. -/
theorem produce_queries_fallback_no_sentinel_witness :
    produce_queries "QT" "I could not decide.\nNo answer given." = ("QT", []) :=
  produce_queries_fallback_no_sentinel "QT"
    "I could not decide.\nNo answer given." (by decide)

/-- C8: with relevance checking on, an article whose judgment raises is
kept (fail open), the exception does not escape the loop, the other
articles are still judged (membership in the output depends only on each
article and its own judgment, as the `filter` characterisation shows), and
the kept list is a sublist of the input, preserving order. -/
theorem relevance_filter_fail_open (judge : Article → Except Unit Bool)
    (report : List Article) (a : Article) (e : Unit)
    (ha : a ∈ report) (he : judge a = .error e) :
    a ∈ filterRelevant true judge report ∧
    List.Sublist (filterRelevant true judge report) report ∧
    filterRelevant true judge report = report.filter (keepArticle judge) := by
  have hfe : filterRelevant true judge report
      = report.filter (keepArticle judge) := by
    unfold filterRelevant
    rw [if_pos rfl, filterRelevantLoop_eq_filter]
  refine ⟨?_, ?_, hfe⟩
  · rw [hfe]
    exact List.mem_filter.mpr ⟨ha, by simp [keepArticle, he]⟩
  · rw [hfe]
    exact List.filter_sublist _

/-- Witness for C8: `judgeW` raises on `artA` and rejects `artB`; `artA`
is nevertheless kept. -/
theorem relevance_filter_fail_open_witness :
    artA ∈ filterRelevant true judgeW [artA, artB] ∧
    List.Sublist (filterRelevant true judgeW [artA, artB]) [artA, artB] ∧
    filterRelevant true judgeW [artA, artB]
      = [artA, artB].filter (keepArticle judgeW) :=
  relevance_filter_fail_open judgeW [artA, artB] artA ()
    (List.mem_cons_self _ _) rfl

/-- C9 counterexample: cache load is claimed never to raise, including on
payloads that are not well-formed records.  A file whose content is not
valid JSON is read by `json.load` *outside* the `try`, so the
`JSONDecodeError` escapes `_check_for_report` instead of producing a cache
miss. -/
theorem cache_load_raises_on_malformed_json :
    check_for_report (fun _ => none) (some "reports") (some .malformed)
      = .error "json.JSONDecodeError" := rfl

/-- C9 amended: cache load returns absent without raising when no report
directory is configured, when the file is missing, and when a payload that
does parse as JSON fails validation against the cached-report schema; only
a payload that is not valid JSON at all raises. -/
theorem cache_load_absent_cases (validItem : Json → Option Article)
    (dir : String) (file : Option StoredPayload) (v : Json)
    (hv : validateReport validItem v = none) :
    check_for_report validItem none file = .ok none ∧
    check_for_report validItem (some dir) none = .ok none ∧
    check_for_report validItem (some dir) (some (.parsed v)) = .ok none := by
  refine ⟨rfl, rfl, ?_⟩
  unfold check_for_report
  dsimp only
  rw [hv]

/-- Witness for the amended C9: a JSON string payload is not a record, so
validation fails and load reports a miss without raising. -/
theorem cache_load_absent_cases_witness :
    check_for_report (fun _ => none) none (some .malformed) = .ok none ∧
    check_for_report (fun _ => none) (some "reports") none = .ok none ∧
    check_for_report (fun _ => none) (some "reports")
      (some (.parsed (Json.str "junk"))) = .ok none :=
  cache_load_absent_cases (fun _ => none) "reports" (some .malformed)
    (Json.str "junk") rfl

/-- C10: an `acquire` that returns adds exactly its amount on top of the
leaked level, with no upper clamp; on an empty bucket an over-capacity
amount leaves the level strictly above `max_rate`; a subsequent `acquire`
of any positive amount returns immediately exactly when the leaked level
has reached `0` or the new amount fits under `max_rate`, and once enough
time has passed for the level to leak away it does reach `0`. -/
theorem acquire_adds_unclamped (s : Limiter) (now a : ℚ) :
    (∀ s₁, s.acquire now a = .immediate s₁ →
      s₁ = { s.leak now with level := (s.leak now).level + a }) ∧
    ((s.leak now).level = 0 → s.max_rate < a →
      s.acquire now a = .immediate { s.leak now with level := a } ∧
      s.max_rate < ({ s.leak now with level := a } : Limiter).level) ∧
    (∀ t b s₁, s.acquire now a = .immediate s₁ → 0 < b →
      ((s₁.acquire t b).returnsNow = true ↔
        (s₁.leak t).level = 0 ∨ (s₁.leak t).level + b ≤ s₁.max_rate)) ∧
    (∀ s₁ t, s.acquire now a = .immediate s₁ →
      s₁.level ≤ (t - s₁.last_check) * s₁.rate_per_sec →
      (s₁.leak t).level = 0) := by
  refine ⟨?_, ?_, ?_, ?_⟩
  · intro s₁ h1
    unfold Limiter.acquire at h1
    split at h1
    · injection h1 with h2
      exact h2.symm
    · exact absurd h1 (by simp)
  · intro h0 hlt
    constructor
    · unfold Limiter.acquire Limiter.hasCapacity
      rw [h0]
      simp
    · simpa using hlt
  · intro t b s₁ _ _
    exact acquire_returnsNow_iff s₁ t b
  · intro s₁ t _ hle
    unfold Limiter.leak
    split
    case isTrue h0 => simpa using h0
    case isFalse h0 =>
      simp only
      rw [max_eq_right]
      rw [sub_nonpos]
      exact hle

/-- Witness for C10 at `UnboundedAsyncLimiter(1, 12.0)`: on the empty
bucket, `acquire(5)` returns with level `5`, strictly above the capacity
`1`. -/
theorem acquire_adds_unclamped_witness :
    Limiter.acquire lim0 0 5
      = .immediate { Limiter.leak lim0 0 with level := 5 } ∧
    lim0.max_rate < ({ Limiter.leak lim0 0 with level := 5 } : Limiter).level :=
  (acquire_adds_unclamped lim0 0 5).2.1 (by norm_num [Limiter.leak, lim0])
    (by norm_num [lim0])

end Minim
